import Mathlib

/-!
Verification of the larascript-acl repository: a shallow embedding of the
ACL data model and of its two implementation surfaces — the standalone
`BasicACLService` class and the `ComposableACL` mixin — together with
theorems settling the frozen claims about them.

Sources embedded:
- `src/src/acl/IACLService.ts` (interfaces `IAccessControlEntity`,
  `IAclConfig`, `IAclGroup`, `IAclRole`; the `ComposableACL` mixin).
- `src/unnamed/part_001` (the `BasicACLService` class).

Modelling conventions:
- TypeScript `string` is `String`; `string[]` is `List String`.
- A `string | string[]` parameter is `StrOrList`; the
  `typeof x === "string" ? [x] : x` normalization is `normalizeInput`.
- A `string | IAclGroup` parameter is `GroupInput`.
- A getter returning `string[] | null` returns `Option (List String)`.
- A method that can `throw` returns `Except ACLError _`; the two thrown
  messages ("Role ... not found", "Group ... not found") become the two
  `ACLError` constructors, each carrying the requested name.
- The service's entity parameter (`IAccessControlEntity`) is a record of
  accessor functions `PureEntity σ` over an abstract state `σ`; a plain
  record-backed entity is `EntityState` with view `entityStateView`.
  For the error-propagation claim the accessors themselves may fail:
  `FallibleEntity ε σ`.
- The mixin's instance fields `_aclRoles`/`_aclGroups` are `MixinState`.
-/

/-- Source: `IAclRole` interface (IACLService.ts lines 19-22). -/
structure IAclRole where
  name : String
  scopes : List String
deriving DecidableEq, Repr

/-- Source: `IAclGroup` interface (IACLService.ts lines 14-17). -/
structure IAclGroup where
  name : String
  roles : List String
deriving DecidableEq, Repr

/-- Source: `IAclConfig` interface (IACLService.ts lines 8-12). -/
structure IAclConfig where
  defaultGroup : String
  groups : List IAclGroup
  roles : List IAclRole
deriving DecidableEq, Repr

/-- The two `throw new ...Exception(...)` sites in the code: "Role ... not
found" and "Group ... not found", each carrying the requested name. -/
inductive ACLError where
  | roleNotFound (name : String)
  | groupNotFound (name : String)
deriving DecidableEq, Repr

/-- A TypeScript `string | string[]` argument. -/
inductive StrOrList where
  | str (s : String)
  | list (l : List String)
deriving DecidableEq, Repr

/-- The normalization `typeof role === "string" ? [role] : role` used by
`getRoleScopes`, `assignRoleToUser`, `removeRoleFromUser`, `hasRole`,
`hasGroup` and the group mutations. -/
def normalizeInput : StrOrList → List String
  | .str s => [s]
  | .list l => l

/-- A TypeScript `string | IAclGroup` argument (as taken by
`getGroupRoles` / `getGroupScopes`). -/
inductive GroupInput where
  | name (s : String)
  | value (g : IAclGroup)
deriving DecidableEq, Repr

/-- Source: `IAccessControlEntity` (IACLService.ts lines 1-6): the four accessor
operations the service requires from an entity, over an abstract entity
state `σ`. A setter returns the updated state. -/
structure PureEntity (σ : Type) where
  getAclRoles : σ → Option (List String)
  setAclRoles : σ → List String → σ
  getAclGroups : σ → Option (List String)
  setAclGroups : σ → List String → σ

/-- A plain record-backed entity state: role and group lists, each
`present (a list)` or `absent (null)`. -/
structure EntityState where
  aclRoles : Option (List String)
  aclGroups : Option (List String)
deriving DecidableEq, Repr

/-- The obvious `IAccessControlEntity` implementation over `EntityState`:
getters read the field, setters replace it. -/
def entityStateView : PureEntity EntityState where
  getAclRoles s := s.aclRoles
  setAclRoles s roles := { s with aclRoles := some roles }
  getAclGroups s := s.aclGroups
  setAclGroups s groups := { s with aclGroups := some groups }

namespace BasicACLService

/-- Source: `getConfig` (part_001 lines 33-35): returns the stored config. -/
def getConfig (cfg : IAclConfig) : IAclConfig := cfg

/-- Source: `getRole` (part_001 lines 64-72): `aclConfig.roles.find(r => r.name
=== role)`, throwing "Role ... not found" when absent. -/
def getRole (cfg : IAclConfig) (role : String) : Except ACLError IAclRole :=
  match cfg.roles.find? (fun r => r.name == role) with
  | some result => .ok result
  | none => .error (.roleNotFound role)

/-- The loop shared by `getRoleScopesFromUser` (part_001 lines 51-54) and
`getRoleScopes` (part_001 lines 83-86): for each role name in order,
resolve it with `getRole` (propagating its exception) and append the
role's scopes. -/
def getRoleScopesList (cfg : IAclConfig) (roles : List String) :
    Except ACLError (List String) :=
  match roles with
  | [] => .ok []
  | roleStr :: rest => do
    let role ← getRole cfg roleStr
    let restScopes ← getRoleScopesList cfg rest
    .ok (role.scopes ++ restScopes)

/-- Source: `getRoleScopesFromUser` (part_001 lines 42-57): read the entity's role
list; `null` short-circuits to `[]`; otherwise accumulate each resolved
role's scopes. -/
def getRoleScopesFromUser (cfg : IAclConfig) (aclRoles : Option (List String)) :
    Except ACLError (List String) :=
  match aclRoles with
  | none => .ok []
  | some roles => getRoleScopesList cfg roles

/-- Source: `getRoleScopes` (part_001 lines 79-89): normalize the input then run
the same accumulation loop. -/
def getRoleScopes (cfg : IAclConfig) (role : StrOrList) :
    Except ACLError (List String) :=
  getRoleScopesList cfg (normalizeInput role)

/-- Source: `getGroup` (part_001 lines 150-158): `aclConfig.groups.find(g =>
g.name === group)`, throwing "Group ... not found" when absent. -/
def getGroup (cfg : IAclConfig) (group : String) : Except ACLError IAclGroup :=
  match cfg.groups.find? (fun g => g.name == group) with
  | some result => .ok result
  | none => .error (.groupNotFound group)

/-- Source: `getDefaultGroup` (part_001 lines 141-143). -/
def getDefaultGroup (cfg : IAclConfig) : Except ACLError IAclGroup :=
  getGroup cfg cfg.defaultGroup

/-- Source: `getGroupRoles` (part_001 lines 165-169): resolve a name argument via
`getGroup`, then map each referenced role name through `getRole`
(the first dangling reference throws). -/
def getGroupRoles (cfg : IAclConfig) (group : GroupInput) :
    Except ACLError (List IAclRole) := do
  let groupResult ← match group with
    | .name s => getGroup cfg s
    | .value g => pure g
  groupResult.roles.mapM (getRole cfg)

/-- Source: `getGroupScopes` (part_001 lines 176-179): `roles.map(r =>
r.scopes).flat()` over `getGroupRoles`. -/
def getGroupScopes (cfg : IAclConfig) (group : GroupInput) :
    Except ACLError (List String) := do
  let roles ← getGroupRoles cfg group
  pure (roles.map (fun role => role.scopes)).flatten

/-- Source: `assignRoleToUser` (part_001 lines 96-102): normalize and overwrite
via the entity's setter; the previous list is never read. -/
def assignRoleToUser (ent : PureEntity σ) (s : σ) (role : StrOrList) : σ :=
  ent.setAclRoles s (normalizeInput role)

/-- Source: `appendRoleToUser` (part_001 lines 109-117): read (null → `[]`),
append the single name at the end, write back. -/
def appendRoleToUser (ent : PureEntity σ) (s : σ) (role : String) : σ :=
  ent.setAclRoles s (((ent.getAclRoles s).getD []) ++ [role])

/-- Source: `removeRoleFromUser` (part_001 lines 124-135): read (null → `[]`),
keep exactly the names not in the normalized input, write back. -/
def removeRoleFromUser (ent : PureEntity σ) (s : σ) (role : StrOrList) : σ :=
  ent.setAclRoles s
    (((ent.getAclRoles s).getD []).filter
      (fun r => !((normalizeInput role).contains r)))

/-- Source: `assignGroupToUser` (part_001 lines 186-193). -/
def assignGroupToUser (ent : PureEntity σ) (s : σ) (group : StrOrList) : σ :=
  ent.setAclGroups s (normalizeInput group)

/-- Source: `appendGroupToUser` (part_001 lines 200-208). -/
def appendGroupToUser (ent : PureEntity σ) (s : σ) (group : String) : σ :=
  ent.setAclGroups s (((ent.getAclGroups s).getD []) ++ [group])

/-- Source: `removeGroupFromUser` (part_001 lines 215-226). -/
def removeGroupFromUser (ent : PureEntity σ) (s : σ) (group : StrOrList) : σ :=
  ent.setAclGroups s
    (((ent.getAclGroups s).getD []).filter
      (fun g => !((normalizeInput group).contains g)))

end BasicACLService

/-- The mixin's instance fields (IACLService.ts lines 77-78):
`_aclRoles: string[] = []` and `_aclGroups: string[] = []`. -/
structure MixinState where
  _aclRoles : List String := []
  _aclGroups : List String := []
deriving DecidableEq, Repr

namespace ComposableACL

/-- Source: `getAclRoles` (IACLService.ts lines 86-88): `_aclRoles.length > 0 ?
_aclRoles : null`. -/
def getAclRoles (st : MixinState) : Option (List String) :=
  if st._aclRoles.length > 0 then some st._aclRoles else none

/-- Source: `setAclRoles` (IACLService.ts lines 90-92). -/
def setAclRoles (st : MixinState) (roles : List String) : MixinState :=
  { st with _aclRoles := roles }

/-- Source: `getAclGroups` (IACLService.ts lines 94-96). -/
def getAclGroups (st : MixinState) : Option (List String) :=
  if st._aclGroups.length > 0 then some st._aclGroups else none

/-- Source: `setAclGroups` (IACLService.ts lines 98-100). -/
def setAclGroups (st : MixinState) (groups : List String) : MixinState :=
  { st with _aclGroups := groups }

/-- The mixin as an `IAccessControlEntity` implementation. -/
def mixinView : PureEntity MixinState where
  getAclRoles := getAclRoles
  setAclRoles := setAclRoles
  getAclGroups := getAclGroups
  setAclGroups := setAclGroups

/-- Source: `getConfig` (IACLService.ts lines 103-105). -/
def getConfig (cfg : IAclConfig) : IAclConfig := cfg

/-- Source: `getGroup` (IACLService.ts lines 111-119). -/
def getGroup (cfg : IAclConfig) (group : String) : Except ACLError IAclGroup :=
  match cfg.groups.find? (fun g => g.name == group) with
  | some result => .ok result
  | none => .error (.groupNotFound group)

/-- Source: `getDefaultGroup` (IACLService.ts lines 107-109). -/
def getDefaultGroup (cfg : IAclConfig) : Except ACLError IAclGroup :=
  getGroup cfg cfg.defaultGroup

/-- Source: `getRole` (IACLService.ts lines 121-129). -/
def getRole (cfg : IAclConfig) (role : String) : Except ACLError IAclRole :=
  match cfg.roles.find? (fun r => r.name == role) with
  | some result => .ok result
  | none => .error (.roleNotFound role)

/-- The `for (const roleName of roles)` loop body of `hasScope`
(IACLService.ts lines 134-137): resolve each name in order (propagating
the exception), returning `true` at the first role whose scope list
contains the scope, `false` past the end. -/
def hasScopeList (cfg : IAclConfig) (roles : List String) (scope : String) :
    Except ACLError Bool :=
  match roles with
  | [] => .ok false
  | roleName :: rest => do
    let role ← getRole cfg roleName
    if role.scopes.contains scope then pure true
    else hasScopeList cfg rest scope

/-- Source: `hasScope` (IACLService.ts lines 131-140): run the loop over
`getAclRoles() ?? []`. -/
def hasScope (cfg : IAclConfig) (st : MixinState) (scope : String) :
    Except ACLError Bool :=
  hasScopeList cfg ((getAclRoles st).getD []) scope

/-- Source: `hasScopes` (IACLService.ts lines 142-148): `for (const scope of
scopes) if (!this.hasScope(scope)) return false; return true`. -/
def hasScopes (cfg : IAclConfig) (st : MixinState) (scopes : List String) :
    Except ACLError Bool :=
  match scopes with
  | [] => .ok true
  | scope :: rest => do
    let b ← hasScope cfg st scope
    if b then hasScopes cfg st rest else pure false

/-- Source: `hasRole` (IACLService.ts lines 150-159): every name of the
normalized input must appear in `getAclRoles() ?? []`; no configuration
lookup, no exception. -/
def hasRole (st : MixinState) (role : StrOrList) : Bool :=
  (normalizeInput role).all
    (fun requiredRole => ((getAclRoles st).getD []).contains requiredRole)

/-- Source: `hasGroup` (IACLService.ts lines 161-170): the group analogue of
`hasRole`. -/
def hasGroup (st : MixinState) (groups : StrOrList) : Bool :=
  (normalizeInput groups).all
    (fun group => ((getAclGroups st).getD []).contains group)

/-- The scope-accumulation loop shared by the mixin's
`getRoleScopesFromUser` (IACLService.ts lines 179-186) and
`getRoleScopes` (IACLService.ts lines 191-198). -/
def roleScopesLoop (cfg : IAclConfig) (roles : List String) :
    Except ACLError (List String) :=
  match roles with
  | [] => .ok []
  | roleString :: rest => do
    let role ← getRole cfg roleString
    let restScopes ← roleScopesLoop cfg rest
    .ok (role.scopes ++ restScopes)

/-- Source: `getRoleScopesFromUser` (IACLService.ts lines 172-187): same body as
the service's, reading the mixin's own getter. -/
def getRoleScopesFromUser (cfg : IAclConfig) (st : MixinState) :
    Except ACLError (List String) :=
  match getAclRoles st with
  | none => .ok []
  | some roles => roleScopesLoop cfg roles

/-- Source: `getRoleScopes` (IACLService.ts lines 189-199). -/
def getRoleScopes (cfg : IAclConfig) (role : StrOrList) :
    Except ACLError (List String) :=
  roleScopesLoop cfg (normalizeInput role)

/-- Source: `getGroupRoles` (IACLService.ts lines 201-205). -/
def getGroupRoles (cfg : IAclConfig) (group : GroupInput) :
    Except ACLError (List IAclRole) := do
  let groupResult ← match group with
    | .name s => getGroup cfg s
    | .value g => pure g
  groupResult.roles.mapM (getRole cfg)

/-- Source: `getGroupScopes` (IACLService.ts lines 207-210). -/
def getGroupScopes (cfg : IAclConfig) (group : GroupInput) :
    Except ACLError (List String) := do
  let roles ← getGroupRoles cfg group
  pure (roles.map (fun role => role.scopes)).flatten

/-- Source: `assignRoleToUser` (IACLService.ts lines 212-215). -/
def assignRoleToUser (st : MixinState) (role : StrOrList) : MixinState :=
  setAclRoles st (normalizeInput role)

/-- Source: `appendRoleToUser` (IACLService.ts lines 217-222). -/
def appendRoleToUser (st : MixinState) (role : String) : MixinState :=
  setAclRoles st (((getAclRoles st).getD []) ++ [role])

/-- Source: `removeRoleFromUser` (IACLService.ts lines 224-232). -/
def removeRoleFromUser (st : MixinState) (role : StrOrList) : MixinState :=
  setAclRoles st
    (((getAclRoles st).getD []).filter
      (fun r => !((normalizeInput role).contains r)))

/-- Source: `assignGroupToUser` (IACLService.ts lines 234-237). -/
def assignGroupToUser (st : MixinState) (group : StrOrList) : MixinState :=
  setAclGroups st (normalizeInput group)

/-- Source: `appendGroupToUser` (IACLService.ts lines 239-244). -/
def appendGroupToUser (st : MixinState) (group : String) : MixinState :=
  setAclGroups st (((getAclGroups st).getD []) ++ [group])

/-- Source: `removeGroupFromUser` (IACLService.ts lines 246-254). -/
def removeGroupFromUser (st : MixinState) (group : StrOrList) : MixinState :=
  setAclGroups st
    (((getAclGroups st).getD []).filter
      (fun g => !((normalizeInput group).contains g)))

end ComposableACL

/-!
Fallible-entity model for the error-propagation claim: the TypeScript
entity's accessors are caller-supplied methods and may themselves throw
(with errors of an arbitrary type `ε`, unrelated to `ACLError`). Each
mutation of `BasicACLService` (part_001 lines 96-135 and 186-226) is
re-read over such an entity; the ACL core itself adds no failure of its
own — it never touches the configuration in a mutation.
-/

/-- Source: `IAccessControlEntity` with accessors that may fail with an error of
an arbitrary caller-chosen type `ε`. -/
structure FallibleEntity (ε σ : Type) where
  getAclRoles : σ → Except ε (Option (List String))
  setAclRoles : σ → List String → Except ε σ
  getAclGroups : σ → Except ε (Option (List String))
  setAclGroups : σ → List String → Except ε σ

namespace FallibleService

/-- Source: `assignRoleToUser` (part_001 lines 96-102) over a fallible entity. -/
def assignRoleToUser (ent : FallibleEntity ε σ) (s : σ) (role : StrOrList) :
    Except ε σ :=
  ent.setAclRoles s (normalizeInput role)

/-- Source: `appendRoleToUser` (part_001 lines 109-117) over a fallible entity. -/
def appendRoleToUser (ent : FallibleEntity ε σ) (s : σ) (role : String) :
    Except ε σ := do
  let currentRoles ← ent.getAclRoles s
  ent.setAclRoles s ((currentRoles.getD []) ++ [role])

/-- Source: `removeRoleFromUser` (part_001 lines 124-135) over a fallible entity. -/
def removeRoleFromUser (ent : FallibleEntity ε σ) (s : σ) (role : StrOrList) :
    Except ε σ := do
  let currentRoles ← ent.getAclRoles s
  ent.setAclRoles s
    ((currentRoles.getD []).filter (fun r => !((normalizeInput role).contains r)))

/-- Source: `assignGroupToUser` (part_001 lines 186-193) over a fallible entity. -/
def assignGroupToUser (ent : FallibleEntity ε σ) (s : σ) (group : StrOrList) :
    Except ε σ :=
  ent.setAclGroups s (normalizeInput group)

/-- Source: `appendGroupToUser` (part_001 lines 200-208) over a fallible entity. -/
def appendGroupToUser (ent : FallibleEntity ε σ) (s : σ) (group : String) :
    Except ε σ := do
  let currentGroups ← ent.getAclGroups s
  ent.setAclGroups s ((currentGroups.getD []) ++ [group])

/-- Source: `removeGroupFromUser` (part_001 lines 215-226) over a fallible entity. -/
def removeGroupFromUser (ent : FallibleEntity ε σ) (s : σ) (group : StrOrList) :
    Except ε σ := do
  let currentGroups ← ent.getAclGroups s
  ent.setAclGroups s
    ((currentGroups.getD []).filter (fun g => !((normalizeInput group).contains g)))

end FallibleService

/-- The ACL operations declared by the `BasicACLService` class, in source
order (part_001 lines 22-227). -/
def basicACLServiceOperations : List String :=
  ["getConfig", "getRoleScopesFromUser", "getRole", "getRoleScopes",
   "assignRoleToUser", "appendRoleToUser", "removeRoleFromUser",
   "getDefaultGroup", "getGroup", "getGroupRoles", "getGroupScopes",
   "assignGroupToUser", "appendGroupToUser", "removeGroupFromUser"]

/-- The ACL operations declared by the class produced by `ComposableACL`,
in source order (IACLService.ts lines 102-254; the four
`IAccessControlEntity` accessor methods of lines 85-100 are the entity
contract, not ACL operations, and are listed in neither). -/
def composableACLOperations : List String :=
  ["getConfig", "getDefaultGroup", "getGroup", "getRole",
   "hasScope", "hasScopes", "hasRole", "hasGroup",
   "getRoleScopesFromUser", "getRoleScopes", "getGroupRoles", "getGroupScopes",
   "assignRoleToUser", "appendRoleToUser", "removeRoleFromUser",
   "assignGroupToUser", "appendGroupToUser", "removeGroupFromUser"]

/-!
Helper lemmas: reduction shapes for the monadic loops, the mixin getter
normalization, and a first-match characterization of `find?` on roles.
-/

/-- One step of the mixin's `hasScope` loop when the head name fails to
resolve: the exception propagates. -/
lemma hasScopeList_cons_error (cfg : IAclConfig) (n : String) (rest : List String)
    (scope : String) (e : ACLError) (h : ComposableACL.getRole cfg n = .error e) :
    ComposableACL.hasScopeList cfg (n :: rest) scope = .error e := by
  simp only [ComposableACL.hasScopeList, h]; rfl

/-- One step of the mixin's `hasScope` loop when the head name resolves:
return true on a scope hit, otherwise continue. -/
lemma hasScopeList_cons_ok (cfg : IAclConfig) (n : String) (rest : List String)
    (scope : String) (role : IAclRole) (h : ComposableACL.getRole cfg n = .ok role) :
    ComposableACL.hasScopeList cfg (n :: rest) scope =
      if role.scopes.contains scope then .ok true
      else ComposableACL.hasScopeList cfg rest scope := by
  simp only [ComposableACL.hasScopeList, h]
  rfl

/-- One step of the service's scope-accumulation loop when the head name
resolves and the rest of the loop succeeds. -/
lemma scopesList_cons_ok (cfg : IAclConfig) (n : String) (rest : List String)
    (role : IAclRole) (restScopes : List String)
    (h : BasicACLService.getRole cfg n = .ok role)
    (h2 : BasicACLService.getRoleScopesList cfg rest = .ok restScopes) :
    BasicACLService.getRoleScopesList cfg (n :: rest) = .ok (role.scopes ++ restScopes) := by
  simp only [BasicACLService.getRoleScopesList, h, h2]
  rfl

/-- The head of the service's scope-accumulation loop must resolve for the
loop to succeed. -/
lemma scopesList_cons_ok_inv (cfg : IAclConfig) (n : String) (rest : List String)
    (out : List String)
    (h : BasicACLService.getRoleScopesList cfg (n :: rest) = .ok out) :
    ∃ role restScopes, BasicACLService.getRole cfg n = .ok role ∧
      BasicACLService.getRoleScopesList cfg rest = .ok restScopes ∧
      out = role.scopes ++ restScopes := by
  cases hr : BasicACLService.getRole cfg n with
  | error e =>
    rw [BasicACLService.getRoleScopesList, hr] at h
    have h2 : (Except.error e : Except ACLError (List String)) = .ok out := h
    exact Except.noConfusion h2
  | ok role =>
    cases h2 : BasicACLService.getRoleScopesList cfg rest with
    | error e =>
      rw [BasicACLService.getRoleScopesList, hr, h2] at h
      have h3 : (Except.error e : Except ACLError (List String)) = .ok out := h
      exact Except.noConfusion h3
    | ok restScopes =>
      rw [BasicACLService.getRoleScopesList, hr, h2] at h
      have h3 : Except.ok (role.scopes ++ restScopes) = (Except.ok out : Except ACLError (List String)) := h
      exact ⟨role, restScopes, rfl, rfl, by simpa using h3.symm⟩

/-- One step of the mixin's `hasScopes` loop when the head check throws. -/
lemma hasScopes_cons_error (cfg : IAclConfig) (st : MixinState) (scope : String)
    (rest : List String) (e : ACLError)
    (h : ComposableACL.hasScope cfg st scope = .error e) :
    ComposableACL.hasScopes cfg st (scope :: rest) = .error e := by
  simp only [ComposableACL.hasScopes, h]; rfl

/-- One step of the mixin's `hasScopes` loop when the head check returns
true: continue with the rest. -/
lemma hasScopes_cons_true (cfg : IAclConfig) (st : MixinState) (scope : String)
    (rest : List String)
    (h : ComposableACL.hasScope cfg st scope = .ok true) :
    ComposableACL.hasScopes cfg st (scope :: rest) =
      ComposableACL.hasScopes cfg st rest := by
  simp only [ComposableACL.hasScopes, h]; rfl

/-- One step of the mixin's `hasScopes` loop when the head check returns
false: stop with false. -/
lemma hasScopes_cons_false (cfg : IAclConfig) (st : MixinState) (scope : String)
    (rest : List String)
    (h : ComposableACL.hasScope cfg st scope = .ok false) :
    ComposableACL.hasScopes cfg st (scope :: rest) = .ok false := by
  simp only [ComposableACL.hasScopes, h]; rfl

/-- The `?? []` normalization of the mixin's role getter recovers the
stored field: an empty stored list reads as `null` and is then defaulted
back to `[]`. -/
lemma getAclRoles_getD (st : MixinState) :
    (ComposableACL.getAclRoles st).getD [] = st._aclRoles := by
  cases hst : st._aclRoles <;> simp [ComposableACL.getAclRoles, hst]

/-- Group analogue of `getAclRoles_getD`. -/
lemma getAclGroups_getD (st : MixinState) :
    (ComposableACL.getAclGroups st).getD [] = st._aclGroups := by
  cases hst : st._aclGroups <;> simp [ComposableACL.getAclGroups, hst]

/-- The mixin's scope-accumulation loop and the service's are the same
function. -/
lemma roleScopesLoop_eq (cfg : IAclConfig) (roles : List String) :
    ComposableACL.roleScopesLoop cfg roles = BasicACLService.getRoleScopesList cfg roles := by
  induction roles with
  | nil => rfl
  | cons n rest ih =>
    simp only [ComposableACL.roleScopesLoop, BasicACLService.getRoleScopesList, ih]
    rfl

/-- First-match characterization of the linear scan
`roles.find(r => r.name === role)`. -/
lemma find?_roleName_eq_some (rs : List IAclRole) (r : String) (role : IAclRole) :
    rs.find? (fun x => x.name == r) = some role ↔
      ∃ l₁ l₂, rs = l₁ ++ role :: l₂ ∧ role.name = r ∧ ∀ ro ∈ l₁, ro.name ≠ r := by
  rw [List.find?_eq_some]
  constructor
  · rintro ⟨hb, as, bs, rfl, hall⟩
    refine ⟨as, bs, rfl, by simpa using hb, ?_⟩
    intro ro hro
    simpa using hall ro hro
  · rintro ⟨l₁, l₂, rfl, hname, hall⟩
    refine ⟨by simpa using hname, l₁, l₂, rfl, ?_⟩
    intro a ha
    simpa using hall a ha

/-- Success characterization of `getRole`: the returned role is the first
configured role with the requested name. -/
lemma getRole_ok_iff (cfg : IAclConfig) (r : String) (role : IAclRole) :
    BasicACLService.getRole cfg r = .ok role ↔
      ∃ l₁ l₂, cfg.roles = l₁ ++ role :: l₂ ∧ role.name = r ∧ ∀ ro ∈ l₁, ro.name ≠ r := by
  unfold BasicACLService.getRole
  cases h : cfg.roles.find? (fun x => x.name == r) with
  | none =>
    constructor
    · intro hh; exact absurd hh (by simp)
    · intro hh
      have h2 := (find?_roleName_eq_some cfg.roles r role).mpr hh
      rw [h] at h2
      exact Option.noConfusion h2
  | some res =>
    constructor
    · intro hh
      have hres : res = role := by simpa using hh
      exact (find?_roleName_eq_some cfg.roles r role).mp (hres ▸ h)
    · intro hh
      have h2 := (find?_roleName_eq_some cfg.roles r role).mpr hh
      rw [h] at h2
      have h3 : res = role := by simpa using h2
      simp [h3]

/-- Failure characterization of `getRole`: it fails exactly when no
configured role carries the requested name, and the only error it can
produce is `roleNotFound` for that name. -/
lemma getRole_error_iff (cfg : IAclConfig) (r : String) (e : ACLError) :
    BasicACLService.getRole cfg r = .error e ↔
      (e = .roleNotFound r ∧ ∀ ro ∈ cfg.roles, ro.name ≠ r) := by
  unfold BasicACLService.getRole
  cases h : cfg.roles.find? (fun x => x.name == r) with
  | none =>
    rw [List.find?_eq_none] at h
    constructor
    · intro hh
      have he : ACLError.roleNotFound r = e := by simpa using hh
      exact ⟨he.symm, fun ro hro => by simpa using h ro hro⟩
    · rintro ⟨rfl, _⟩; rfl
  | some res =>
    have hres := List.find?_some h
    constructor
    · intro hh; exact absurd hh (by simp)
    · rintro ⟨rfl, hall⟩
      exact absurd (by simpa using hres) (hall res (List.mem_of_find?_eq_some h))

/-- Decidable equality of results, for evaluating the embedded operations
at concrete inputs. -/
instance {ε α : Type} [DecidableEq ε] [DecidableEq α] : DecidableEq (Except ε α) :=
  fun a b =>
    match a, b with
    | .ok x, .ok y => decidable_of_iff (x = y) (by simp)
    | .error x, .error y => decidable_of_iff (x = y) (by simp)
    | .ok _, .error _ => .isFalse (by simp)
    | .error _, .ok _ => .isFalse (by simp)

/-- The example configuration from the repository README (part_000 lines
25-47), used to witness hypotheses at concrete inputs. -/
def exampleConfig : IAclConfig where
  defaultGroup := "user"
  groups := [⟨"admin", ["role_admin"]⟩, ⟨"user", ["role_user"]⟩]
  roles := [⟨"role_admin", ["read:all", "write:all", "delete:all"]⟩,
            ⟨"role_user", ["read:own", "write:own"]⟩]

/-- Success characterization of the `hasScope` loop: it returns `ok true`
exactly when the role-name list splits as `l₁ ++ r :: l₂` with every name
up to and including `r` resolvable and `r` resolving to a role whose
scopes contain the scope; the names in `l₂` are unconstrained (never
resolved). -/
lemma hasScopeList_ok_true_iff (cfg : IAclConfig) (roles : List String)
    (scope : String) :
    ComposableACL.hasScopeList cfg roles scope = .ok true ↔
      ∃ l₁ r l₂, roles = l₁ ++ r :: l₂ ∧
        (∀ n ∈ l₁, ∃ ro, ComposableACL.getRole cfg n = .ok ro) ∧
        ∃ ro, ComposableACL.getRole cfg r = .ok ro ∧ scope ∈ ro.scopes := by
  induction roles with
  | nil =>
    constructor
    · intro h; exact absurd h (by simp [ComposableACL.hasScopeList])
    · rintro ⟨l₁, r, l₂, hsplit, -, -⟩
      exact absurd hsplit (by simp)
  | cons n rest ih =>
    cases h : ComposableACL.getRole cfg n with
    | error e =>
      rw [hasScopeList_cons_error cfg n rest scope e h]
      constructor
      · intro hh; exact absurd hh (by simp)
      · rintro ⟨l₁, r, l₂, hsplit, hpre, ro, hro, hmem⟩
        exfalso
        cases l₁ with
        | nil =>
          have hn : n = r ∧ rest = l₂ := by simpa using hsplit
          rw [← hn.1, h] at hro
          exact Except.noConfusion hro
        | cons m l₁' =>
          have hn : n = m ∧ rest = l₁' ++ r :: l₂ := by simpa using hsplit
          obtain ⟨ro0, hro0⟩ := hpre m (List.mem_cons_self m l₁')
          rw [← hn.1, h] at hro0
          exact Except.noConfusion hro0
    | ok role =>
      rw [hasScopeList_cons_ok cfg n rest scope role h]
      by_cases hc : role.scopes.contains scope = true
      · rw [if_pos hc]
        constructor
        · intro _
          exact ⟨[], n, rest, rfl, by simp, role, h, by simpa using hc⟩
        · intro _; rfl
      · rw [if_neg hc]
        rw [ih]
        constructor
        · rintro ⟨l₁, r, l₂, rfl, hpre, ro, hro, hmem⟩
          refine ⟨n :: l₁, r, l₂, rfl, ?_, ro, hro, hmem⟩
          intro m hm
          rcases List.mem_cons.mp hm with rfl | hm'
          · exact ⟨role, h⟩
          · exact hpre m hm'
        · rintro ⟨l₁, r, l₂, hsplit, hpre, ro, hro, hmem⟩
          cases l₁ with
          | nil =>
            exfalso
            have hn : n = r ∧ rest = l₂ := by simpa using hsplit
            rw [← hn.1, h] at hro
            have hro2 : role = ro := by simpa using hro
            rw [← hro2] at hmem
            exact hc (by simpa using hmem)
          | cons m l₁' =>
            have hs2 : n = m ∧ rest = l₁' ++ r :: l₂ := by simpa using hsplit
            exact ⟨l₁', r, l₂, hs2.2, fun x hx => hpre x (List.mem_cons_of_mem m hx),
              ro, hro, hmem⟩

/-- C1: `hasScope(entity, scope)` returns `ok true` exactly when some role
resolved from the entity's assigned role-name list, scanned in assignment
order with every earlier name also resolvable, has the scope in its scope
list — the names after the first match are unconstrained because the loop
returns before resolving them; with no assigned roles it returns
`ok false`, not an error. -/
theorem hasScope_first_match_iff (cfg : IAclConfig) (st : MixinState)
    (scope : String) :
    (ComposableACL.hasScope cfg st scope = .ok true ↔
      ∃ l₁ r l₂, st._aclRoles = l₁ ++ r :: l₂ ∧
        (∀ n ∈ l₁, ∃ ro, ComposableACL.getRole cfg n = .ok ro) ∧
        ∃ ro, ComposableACL.getRole cfg r = .ok ro ∧ scope ∈ ro.scopes)
    ∧ (st._aclRoles = [] → ComposableACL.hasScope cfg st scope = .ok false) := by
  constructor
  · unfold ComposableACL.hasScope
    rw [getAclRoles_getD]
    exact hasScopeList_ok_true_iff cfg st._aclRoles scope
  · intro h
    unfold ComposableACL.hasScope
    rw [getAclRoles_getD, h]
    rfl

/-- Witness for C1 at the README configuration: an entity with no
assigned roles gets `ok false`, and an entity holding `role_user` followed
by an unconfigured name still gets `ok true` for `read:own` because the
loop returns at the first match. -/
theorem hasScope_first_match_iff_witness :
    ComposableACL.hasScope exampleConfig ⟨[], []⟩ "read:own" = .ok false ∧
    ComposableACL.hasScope exampleConfig ⟨["role_user", "ghost"], []⟩ "read:own" = .ok true :=
  ⟨(hasScope_first_match_iff exampleConfig ⟨[], []⟩ "read:own").2 rfl,
   (hasScope_first_match_iff exampleConfig ⟨["role_user", "ghost"], []⟩ "read:own").1.mpr
     ⟨[], "role_user", ["ghost"], rfl, by simp,
      ⟨"role_user", ["read:own", "write:own"]⟩, by decide, by decide⟩⟩

/-- C3: for a name occurring in the configured role sequence, `getRole`
returns the first configured role (declaration order) with that name; for
any other name it fails with the role-not-found error, and it produces no
other error; the mixin's `getRole` is the same function. -/
theorem getRole_first_or_notFound (cfg : IAclConfig) (r : String) :
    (∀ role, BasicACLService.getRole cfg r = .ok role ↔
      ∃ l₁ l₂, cfg.roles = l₁ ++ role :: l₂ ∧ role.name = r ∧ ∀ ro ∈ l₁, ro.name ≠ r)
    ∧ (BasicACLService.getRole cfg r = .error (.roleNotFound r) ↔
        ∀ ro ∈ cfg.roles, ro.name ≠ r)
    ∧ (∀ e, BasicACLService.getRole cfg r = .error e → e = .roleNotFound r)
    ∧ ComposableACL.getRole cfg r = BasicACLService.getRole cfg r := by
  refine ⟨fun role => getRole_ok_iff cfg r role, ?_, ?_, rfl⟩
  · rw [getRole_error_iff]
    simp
  · intro e he
    exact ((getRole_error_iff cfg r e).mp he).1

/-- Witness for C3 at the README configuration: the configured name
`role_user` resolves to its unique configured role, and the unconfigured
name `role_ghost` fails with the role-not-found error. -/
theorem getRole_first_or_notFound_witness :
    BasicACLService.getRole exampleConfig "role_user" =
      .ok ⟨"role_user", ["read:own", "write:own"]⟩ ∧
    BasicACLService.getRole exampleConfig "role_ghost" =
      .error (.roleNotFound "role_ghost") :=
  ⟨((getRole_first_or_notFound exampleConfig "role_user").1
      ⟨"role_user", ["read:own", "write:own"]⟩).mpr
      ⟨[⟨"role_admin", ["read:all", "write:all", "delete:all"]⟩], [], rfl, rfl, by decide⟩,
   (getRole_first_or_notFound exampleConfig "role_ghost").2.1.mpr (by decide)⟩

/-- Membership reading of `hasRole`: true exactly when every normalized
input name is in the stored role list. -/
lemma hasRole_eq_true_iff (st : MixinState) (role : StrOrList) :
    ComposableACL.hasRole st role = true ↔
      ∀ r ∈ normalizeInput role, r ∈ st._aclRoles := by
  unfold ComposableACL.hasRole
  rw [getAclRoles_getD]
  simp

/-- C4: `hasRole` returns true exactly when every name of the normalized
input is a member of the entity's stored role list; it consults nothing
but that list (the function takes no configuration at all, so unknown
role names cannot make it fail), and the empty input is vacuously true. -/
theorem hasRole_all_membership (st : MixinState) (role : StrOrList) :
    (ComposableACL.hasRole st role = true ↔
      ∀ r ∈ normalizeInput role, r ∈ st._aclRoles)
    ∧ ComposableACL.hasRole st (.list []) = true :=
  ⟨hasRole_eq_true_iff st role, rfl⟩

/-- Witness for C4 at concrete entities: empty requirement is true, a
held (even unconfigured) name matches, a missing name does not. -/
theorem hasRole_all_membership_witness :
    ComposableACL.hasRole ⟨["role_user"], []⟩ (.list []) = true ∧
    ComposableACL.hasRole ⟨["not_a_configured_role"], []⟩ (.str "not_a_configured_role") = true ∧
    ComposableACL.hasRole ⟨["role_user"], []⟩ (.str "role_admin") = false :=
  ⟨(hasRole_all_membership ⟨["role_user"], []⟩ (.list [])).2,
   (hasRole_all_membership ⟨["not_a_configured_role"], []⟩
      (.str "not_a_configured_role")).1.mpr (by decide),
   by decide⟩

/-- C6: `assignRoleToUser` overwrites the role list with the normalized
input regardless of previous contents, in both variants, and is
idempotent in both variants. -/
theorem assignRole_overwrites_idempotent (s : EntityState) (st : MixinState)
    (role : StrOrList) :
    (BasicACLService.assignRoleToUser entityStateView s role).aclRoles =
      some (normalizeInput role)
    ∧ BasicACLService.assignRoleToUser entityStateView
        (BasicACLService.assignRoleToUser entityStateView s role) role =
      BasicACLService.assignRoleToUser entityStateView s role
    ∧ (ComposableACL.assignRoleToUser st role)._aclRoles = normalizeInput role
    ∧ ComposableACL.assignRoleToUser (ComposableACL.assignRoleToUser st role) role =
      ComposableACL.assignRoleToUser st role :=
  ⟨rfl, rfl, rfl, rfl⟩

/-- Witness for C6: assigning `role_admin` to an entity already holding
`role_user` leaves exactly `[role_admin]`. -/
theorem assignRole_overwrites_idempotent_witness :
    (BasicACLService.assignRoleToUser entityStateView
      ⟨some ["role_user"], none⟩ (.str "role_admin")).aclRoles = some ["role_admin"] :=
  (assignRole_overwrites_idempotent ⟨some ["role_user"], none⟩ ⟨[], []⟩
    (.str "role_admin")).1

/-- C7: `removeRoleFromUser` writes back the previous list (absent read as
empty) filtered to drop every normalized input name, an order-preserving
sublist of the original; afterwards `hasRole` is false for every removed
name and stays true for every kept name. -/
theorem removeRole_filters_spec (s : EntityState) (st : MixinState)
    (role : StrOrList) :
    (BasicACLService.removeRoleFromUser entityStateView s role).aclRoles =
      some ((s.aclRoles.getD []).filter (fun r => !((normalizeInput role).contains r)))
    ∧ List.Sublist
        (((BasicACLService.removeRoleFromUser entityStateView s role).aclRoles).getD [])
        (s.aclRoles.getD [])
    ∧ (∀ r ∈ normalizeInput role,
        ComposableACL.hasRole (ComposableACL.removeRoleFromUser st role) (.str r) = false)
    ∧ (∀ r ∈ st._aclRoles, r ∉ normalizeInput role →
        ComposableACL.hasRole (ComposableACL.removeRoleFromUser st role) (.str r) = true) := by
  have hstate : (ComposableACL.removeRoleFromUser st role)._aclRoles =
      st._aclRoles.filter (fun x => !((normalizeInput role).contains x)) := by
    simp [ComposableACL.removeRoleFromUser, ComposableACL.setAclRoles, getAclRoles_getD]
  refine ⟨rfl, ?_, ?_, ?_⟩
  · exact List.filter_sublist _
  · intro r hr
    rw [Bool.eq_false_iff]
    rw [Ne, hasRole_eq_true_iff]
    intro hall
    have hmem := hall r (by simp [normalizeInput])
    rw [hstate, List.mem_filter] at hmem
    simp at hmem
    exact hmem.2 hr
  · intro r hrmem hrnot
    rw [hasRole_eq_true_iff]
    intro x hx
    have hxr : x = r := by simpa [normalizeInput] using hx
    subst hxr
    rw [hstate, List.mem_filter]
    exact ⟨hrmem, by simpa using hrnot⟩

/-- Witness for C7: removing `role_admin` from an entity holding
`[role_admin, role_user]` makes `hasRole role_admin` false while
`hasRole role_user` stays true. -/
theorem removeRole_filters_spec_witness :
    ComposableACL.hasRole
      (ComposableACL.removeRoleFromUser ⟨["role_admin", "role_user"], []⟩
        (.str "role_admin")) (.str "role_admin") = false ∧
    ComposableACL.hasRole
      (ComposableACL.removeRoleFromUser ⟨["role_admin", "role_user"], []⟩
        (.str "role_admin")) (.str "role_user") = true :=
  ⟨(removeRole_filters_spec ⟨none, none⟩ ⟨["role_admin", "role_user"], []⟩
      (.str "role_admin")).2.2.1 "role_admin" (by decide),
   (removeRole_filters_spec ⟨none, none⟩ ⟨["role_admin", "role_user"], []⟩
      (.str "role_admin")).2.2.2 "role_user" (by decide) (by decide)⟩

/-- C10: the mixin's getters report absence (`null`) exactly when the
stored list is empty, so they never return an empty list, and assigning
the empty list reads back as absent. -/
theorem mixin_read_absent_iff_empty (st : MixinState) :
    (∀ l, ComposableACL.getAclRoles st = some l → l ≠ [])
    ∧ (ComposableACL.getAclRoles st = none ↔ st._aclRoles = [])
    ∧ (∀ l, ComposableACL.getAclGroups st = some l → l ≠ [])
    ∧ (ComposableACL.getAclGroups st = none ↔ st._aclGroups = [])
    ∧ ComposableACL.getAclRoles (ComposableACL.assignRoleToUser st (.list [])) = none
    ∧ ComposableACL.getAclGroups (ComposableACL.assignGroupToUser st (.list [])) = none := by
  refine ⟨?_, ?_, ?_, ?_, rfl, rfl⟩
  · intro l hl hc
    subst hc
    unfold ComposableACL.getAclRoles at hl
    split at hl
    · next hpos =>
      have hr : st._aclRoles = [] := by simpa using hl
      rw [hr] at hpos
      simp at hpos
    · exact Option.noConfusion hl
  · unfold ComposableACL.getAclRoles
    split
    · next hpos =>
      constructor
      · intro hh; exact Option.noConfusion hh
      · intro hh; rw [hh] at hpos; simp at hpos
    · next hneg =>
      constructor
      · intro _; exact List.length_eq_zero.mp (Nat.eq_zero_of_not_pos hneg)
      · intro _; rfl
  · intro l hl hc
    subst hc
    unfold ComposableACL.getAclGroups at hl
    split at hl
    · next hpos =>
      have hg : st._aclGroups = [] := by simpa using hl
      rw [hg] at hpos
      simp at hpos
    · exact Option.noConfusion hl
  · unfold ComposableACL.getAclGroups
    split
    · next hpos =>
      constructor
      · intro hh; exact Option.noConfusion hh
      · intro hh; rw [hh] at hpos; simp at hpos
    · next hneg =>
      constructor
      · intro _; exact List.length_eq_zero.mp (Nat.eq_zero_of_not_pos hneg)
      · intro _; rfl

/-- Witness for C10: a nonempty stored list is indeed nonempty, and an
empty stored list reads back as absent. -/
theorem mixin_read_absent_iff_empty_witness :
    (["role_user"] : List String) ≠ [] ∧
    ComposableACL.getAclRoles ⟨[], ["user"]⟩ = none :=
  ⟨(mixin_read_absent_iff_empty ⟨["role_user"], []⟩).1 ["role_user"] rfl,
   (mixin_read_absent_iff_empty ⟨[], ["user"]⟩).2.1.mpr rfl⟩

/-- C5: for two resolvable role names, `getRoleScopes` on the pair is the
concatenation of the two single-name results, order-preserving and
without deduplication. -/
theorem getRoleScopes_pair_concatenation (cfg : IAclConfig) (r1 r2 : String)
    (s1 s2 : List String)
    (h1 : BasicACLService.getRoleScopes cfg (.str r1) = .ok s1)
    (h2 : BasicACLService.getRoleScopes cfg (.str r2) = .ok s2) :
    BasicACLService.getRoleScopes cfg (.list [r1, r2]) = .ok (s1 ++ s2) := by
  unfold BasicACLService.getRoleScopes at h1 h2 ⊢
  simp only [normalizeInput] at h1 h2 ⊢
  obtain ⟨ro1, rest1, hro1, hrest1, hs1⟩ := scopesList_cons_ok_inv cfg r1 [] s1 h1
  obtain ⟨ro2, rest2, hro2, hrest2, hs2⟩ := scopesList_cons_ok_inv cfg r2 [] s2 h2
  have hrest1n : rest1 = [] := by
    have hh : Except.ok ([] : List String) = .ok rest1 := hrest1
    simpa using hh
  have hrest2n : rest2 = [] := by
    have hh : Except.ok ([] : List String) = .ok rest2 := hrest2
    simpa using hh
  have hsingle2 : BasicACLService.getRoleScopesList cfg [r2] = .ok (ro2.scopes ++ []) :=
    scopesList_cons_ok cfg r2 [] ro2 [] hro2 rfl
  have hpair := scopesList_cons_ok cfg r1 [r2] ro1 (ro2.scopes ++ []) hro1 hsingle2
  rw [hpair]
  subst hs1 hs2 hrest1n hrest2n
  simp

/-- Witness for C5 at the README configuration: the admin and user role
scopes concatenate in order, duplicates kept. -/
theorem getRoleScopes_pair_concatenation_witness :
    BasicACLService.getRoleScopes exampleConfig (.list ["role_admin", "role_user"]) =
      .ok (["read:all", "write:all", "delete:all"] ++ ["read:own", "write:own"]) :=
  getRoleScopes_pair_concatenation exampleConfig "role_admin" "role_user"
    ["read:all", "write:all", "delete:all"] ["read:own", "write:own"]
    (by decide) (by decide)

/-- If every check before `sfail` passes and the check at `sfail` returns
false, the `hasScopes` loop stops there with false, whatever follows. -/
lemma hasScopes_append_false (cfg : IAclConfig) (st : MixinState)
    (l₁ : List String) (sfail : String) (l₂ : List String)
    (hpre : ∀ t ∈ l₁, ComposableACL.hasScope cfg st t = .ok true)
    (hfail : ComposableACL.hasScope cfg st sfail = .ok false) :
    ComposableACL.hasScopes cfg st (l₁ ++ sfail :: l₂) = .ok false := by
  induction l₁ with
  | nil => exact hasScopes_cons_false cfg st sfail l₂ hfail
  | cons t l₁' ih =>
    have ht : ComposableACL.hasScope cfg st t = .ok true :=
      hpre t (List.mem_cons_self _ _)
    rw [List.cons_append, hasScopes_cons_true cfg st t (l₁' ++ sfail :: l₂) ht]
    exact ih (fun x hx => hpre x (List.mem_cons_of_mem _ hx))

/-- C8: `hasScopes` succeeds with true exactly when `hasScope` succeeds
with true for every scope of the list (so it is their logical AND), it is
true on the empty list, and it short-circuits to false at the first scope
whose check returns false. -/
theorem hasScopes_forall_and (cfg : IAclConfig) (st : MixinState)
    (scopes : List String) :
    (ComposableACL.hasScopes cfg st scopes = .ok true ↔
      ∀ s ∈ scopes, ComposableACL.hasScope cfg st s = .ok true)
    ∧ ComposableACL.hasScopes cfg st [] = .ok true
    ∧ (∀ l₁ s l₂, scopes = l₁ ++ s :: l₂ →
        (∀ t ∈ l₁, ComposableACL.hasScope cfg st t = .ok true) →
        ComposableACL.hasScope cfg st s = .ok false →
        ComposableACL.hasScopes cfg st scopes = .ok false) := by
  refine ⟨?_, rfl, ?_⟩
  · induction scopes with
    | nil => simp [ComposableACL.hasScopes]
    | cons sc rest ih =>
      cases h : ComposableACL.hasScope cfg st sc with
      | error e =>
        rw [hasScopes_cons_error cfg st sc rest e h]
        constructor
        · intro hh; exact absurd hh (by simp)
        · intro hall
          have h2 := hall sc (List.mem_cons_self _ _)
          rw [h] at h2
          exact absurd h2 (by simp)
      | ok b =>
        cases b with
        | true =>
          rw [hasScopes_cons_true cfg st sc rest h, ih]
          constructor
          · intro hall t ht
            rcases List.mem_cons.mp ht with rfl | ht'
            · exact h
            · exact hall t ht'
          · intro hall t ht
            exact hall t (List.mem_cons_of_mem _ ht)
        | false =>
          rw [hasScopes_cons_false cfg st sc rest h]
          constructor
          · intro hh; exact absurd hh (by simp)
          · intro hall
            have h2 := hall sc (List.mem_cons_self _ _)
            rw [h] at h2
            exact absurd h2 (by simp)
  · intro l₁ sfail l₂ hsplit hpre hfail
    rw [hsplit]
    exact hasScopes_append_false cfg st l₁ sfail l₂ hpre hfail

/-- Witness for C8 at the README configuration: both of the user role's
own scopes pass; a list containing a scope the user lacks fails. -/
theorem hasScopes_forall_and_witness :
    ComposableACL.hasScopes exampleConfig ⟨["role_user"], []⟩
      ["read:own", "write:own"] = .ok true ∧
    ComposableACL.hasScopes exampleConfig ⟨["role_user"], []⟩
      ["read:own", "delete:all"] = .ok false :=
  ⟨(hasScopes_forall_and exampleConfig ⟨["role_user"], []⟩
      ["read:own", "write:own"]).1.mpr (by decide),
   (hasScopes_forall_and exampleConfig ⟨["role_user"], []⟩
      ["read:own", "delete:all"]).2.2 ["read:own"] "delete:all" [] rfl
      (by decide) (by decide)⟩

/-- Reduction of an `Except` bind whose first step failed. -/
lemma bind_error_eq {ε α β : Type} (e : ε) (f : α → Except ε β) :
    (do let x ← (Except.error e : Except ε α); f x) = Except.error e := rfl

/-- Reduction of an `Except` bind whose first step succeeded. -/
lemma bind_ok_eq {ε α β : Type} (a : α) (f : α → Except ε β) :
    (do let x ← (Except.ok a : Except ε α); f x) = f a := rfl

/-- C9: each mutation operation fails exactly when one of the entity
accessor calls it makes fails, with that accessor's error passed through
unmodified; the operations are parametric in the accessor error type and
never consult the configuration, and with infallible accessors every
mutation succeeds for every input, so the core's not-found error can
never arise from a mutation. -/
theorem mutations_fail_only_via_accessors {ε σ : Type} (ent : FallibleEntity ε σ)
    (s : σ) (inp : StrOrList) (nm : String) (e : ε) :
    (FallibleService.assignRoleToUser ent s inp = .error e ↔
      ent.setAclRoles s (normalizeInput inp) = .error e)
    ∧ (FallibleService.appendRoleToUser ent s nm = .error e ↔
        (ent.getAclRoles s = .error e ∨
          ∃ cur, ent.getAclRoles s = .ok cur ∧
            ent.setAclRoles s ((cur.getD []) ++ [nm]) = .error e))
    ∧ (FallibleService.removeRoleFromUser ent s inp = .error e ↔
        (ent.getAclRoles s = .error e ∨
          ∃ cur, ent.getAclRoles s = .ok cur ∧
            ent.setAclRoles s ((cur.getD []).filter
              (fun r => !((normalizeInput inp).contains r))) = .error e))
    ∧ (FallibleService.assignGroupToUser ent s inp = .error e ↔
        ent.setAclGroups s (normalizeInput inp) = .error e)
    ∧ (FallibleService.appendGroupToUser ent s nm = .error e ↔
        (ent.getAclGroups s = .error e ∨
          ∃ cur, ent.getAclGroups s = .ok cur ∧
            ent.setAclGroups s ((cur.getD []) ++ [nm]) = .error e))
    ∧ (FallibleService.removeGroupFromUser ent s inp = .error e ↔
        (ent.getAclGroups s = .error e ∨
          ∃ cur, ent.getAclGroups s = .ok cur ∧
            ent.setAclGroups s ((cur.getD []).filter
              (fun g => !((normalizeInput inp).contains g))) = .error e))
    ∧ (∀ (ent0 : FallibleEntity Empty σ) (s0 : σ),
        (∃ s1, FallibleService.assignRoleToUser ent0 s0 inp = .ok s1) ∧
        (∃ s1, FallibleService.appendRoleToUser ent0 s0 nm = .ok s1) ∧
        (∃ s1, FallibleService.removeRoleFromUser ent0 s0 inp = .ok s1) ∧
        (∃ s1, FallibleService.assignGroupToUser ent0 s0 inp = .ok s1) ∧
        (∃ s1, FallibleService.appendGroupToUser ent0 s0 nm = .ok s1) ∧
        (∃ s1, FallibleService.removeGroupFromUser ent0 s0 inp = .ok s1)) := by
  refine ⟨Iff.rfl, ?_, ?_, Iff.rfl, ?_, ?_, ?_⟩
  · unfold FallibleService.appendRoleToUser
    cases hg : ent.getAclRoles s with
    | error e0 =>
      rw [bind_error_eq]
      constructor
      · intro hh
        have h3 : e0 = e := by simpa using hh
        exact Or.inl (by rw [h3])
      · rintro (hh | ⟨cur, hcur, hset⟩)
        · have h3 : e0 = e := by simpa using hh
          rw [h3]
        · exact Except.noConfusion hcur
    | ok cur0 =>
      rw [bind_ok_eq]
      constructor
      · intro hh
        exact Or.inr ⟨cur0, rfl, hh⟩
      · rintro (hh | ⟨cur, hcur, hset⟩)
        · exact Except.noConfusion hh
        · have h3 : cur0 = cur := by simpa using hcur
          rw [h3]
          exact hset
  · unfold FallibleService.removeRoleFromUser
    cases hg : ent.getAclRoles s with
    | error e0 =>
      rw [bind_error_eq]
      constructor
      · intro hh
        have h3 : e0 = e := by simpa using hh
        exact Or.inl (by rw [h3])
      · rintro (hh | ⟨cur, hcur, hset⟩)
        · have h3 : e0 = e := by simpa using hh
          rw [h3]
        · exact Except.noConfusion hcur
    | ok cur0 =>
      rw [bind_ok_eq]
      constructor
      · intro hh
        exact Or.inr ⟨cur0, rfl, hh⟩
      · rintro (hh | ⟨cur, hcur, hset⟩)
        · exact Except.noConfusion hh
        · have h3 : cur0 = cur := by simpa using hcur
          rw [h3]
          exact hset
  · unfold FallibleService.appendGroupToUser
    cases hg : ent.getAclGroups s with
    | error e0 =>
      rw [bind_error_eq]
      constructor
      · intro hh
        have h3 : e0 = e := by simpa using hh
        exact Or.inl (by rw [h3])
      · rintro (hh | ⟨cur, hcur, hset⟩)
        · have h3 : e0 = e := by simpa using hh
          rw [h3]
        · exact Except.noConfusion hcur
    | ok cur0 =>
      rw [bind_ok_eq]
      constructor
      · intro hh
        exact Or.inr ⟨cur0, rfl, hh⟩
      · rintro (hh | ⟨cur, hcur, hset⟩)
        · exact Except.noConfusion hh
        · have h3 : cur0 = cur := by simpa using hcur
          rw [h3]
          exact hset
  · unfold FallibleService.removeGroupFromUser
    cases hg : ent.getAclGroups s with
    | error e0 =>
      rw [bind_error_eq]
      constructor
      · intro hh
        have h3 : e0 = e := by simpa using hh
        exact Or.inl (by rw [h3])
      · rintro (hh | ⟨cur, hcur, hset⟩)
        · have h3 : e0 = e := by simpa using hh
          rw [h3]
        · exact Except.noConfusion hcur
    | ok cur0 =>
      rw [bind_ok_eq]
      constructor
      · intro hh
        exact Or.inr ⟨cur0, rfl, hh⟩
      · rintro (hh | ⟨cur, hcur, hset⟩)
        · exact Except.noConfusion hh
        · have h3 : cur0 = cur := by simpa using hcur
          rw [h3]
          exact hset
  · intro ent0 s0
    refine ⟨?_, ?_, ?_, ?_, ?_, ?_⟩
    · cases h : FallibleService.assignRoleToUser ent0 s0 inp with
      | ok s1 => exact ⟨s1, rfl⟩
      | error e0 => exact e0.elim
    · cases h : FallibleService.appendRoleToUser ent0 s0 nm with
      | ok s1 => exact ⟨s1, rfl⟩
      | error e0 => exact e0.elim
    · cases h : FallibleService.removeRoleFromUser ent0 s0 inp with
      | ok s1 => exact ⟨s1, rfl⟩
      | error e0 => exact e0.elim
    · cases h : FallibleService.assignGroupToUser ent0 s0 inp with
      | ok s1 => exact ⟨s1, rfl⟩
      | error e0 => exact e0.elim
    · cases h : FallibleService.appendGroupToUser ent0 s0 nm with
      | ok s1 => exact ⟨s1, rfl⟩
      | error e0 => exact e0.elim
    · cases h : FallibleService.removeGroupFromUser ent0 s0 inp with
      | ok s1 => exact ⟨s1, rfl⟩
      | error e0 => exact e0.elim

/-- An entity whose accessors always succeed, backed by a plain record. -/
def okStoreEntity : FallibleEntity ACLError EntityState where
  getAclRoles s := .ok s.aclRoles
  setAclRoles s roles := .ok { s with aclRoles := some roles }
  getAclGroups s := .ok s.aclGroups
  setAclGroups s groups := .ok { s with aclGroups := some groups }

/-- Witness for C9: appending an unconfigured role name through accessors
that always succeed cannot produce the role-not-found error. -/
theorem mutations_fail_only_via_accessors_witness :
    ¬ (FallibleService.appendRoleToUser okStoreEntity ⟨none, none⟩ "ghost" =
        .error (ACLError.roleNotFound "ghost")) := by
  intro hh
  rcases (mutations_fail_only_via_accessors okStoreEntity ⟨none, none⟩
      (.str "ghost") "ghost" (ACLError.roleNotFound "ghost")).2.1.mp hh with
    h | ⟨cur, hcur, hset⟩
  · exact absurd h (by simp [okStoreEntity])
  · exact absurd hset (by simp [okStoreEntity])

/-- C2 counterexample: the two variants do not expose the same set of
operations — the mixin declares `hasScope` (and likewise `hasScopes`,
`hasRole`, `hasGroup`) while the `BasicACLService` class declares no such
method. -/
theorem service_mixin_operation_sets_differ :
    ("hasScope" ∈ composableACLOperations ∧ "hasScope" ∉ basicACLServiceOperations)
    ∧ ("hasScopes" ∈ composableACLOperations ∧ "hasScopes" ∉ basicACLServiceOperations)
    ∧ ("hasRole" ∈ composableACLOperations ∧ "hasRole" ∉ basicACLServiceOperations)
    ∧ ("hasGroup" ∈ composableACLOperations ∧ "hasGroup" ∉ basicACLServiceOperations) := by
  decide

/-- C2 (amended): every operation exposed by both variants computes the
same result, and every shared mutation applied by the service to a
mixin-backed entity performs the same state change as the mixin's own
method. -/
theorem service_mixin_shared_ops_agree (cfg : IAclConfig) (st : MixinState) :
    BasicACLService.getConfig cfg = ComposableACL.getConfig cfg
    ∧ BasicACLService.getDefaultGroup cfg = ComposableACL.getDefaultGroup cfg
    ∧ (∀ g, BasicACLService.getGroup cfg g = ComposableACL.getGroup cfg g)
    ∧ (∀ r, BasicACLService.getRole cfg r = ComposableACL.getRole cfg r)
    ∧ (∀ ro, BasicACLService.getRoleScopes cfg ro = ComposableACL.getRoleScopes cfg ro)
    ∧ BasicACLService.getRoleScopesFromUser cfg (ComposableACL.getAclRoles st) =
        ComposableACL.getRoleScopesFromUser cfg st
    ∧ (∀ g, BasicACLService.getGroupRoles cfg g = ComposableACL.getGroupRoles cfg g)
    ∧ (∀ g, BasicACLService.getGroupScopes cfg g = ComposableACL.getGroupScopes cfg g)
    ∧ (∀ ro, BasicACLService.assignRoleToUser ComposableACL.mixinView st ro =
        ComposableACL.assignRoleToUser st ro)
    ∧ (∀ nm, BasicACLService.appendRoleToUser ComposableACL.mixinView st nm =
        ComposableACL.appendRoleToUser st nm)
    ∧ (∀ ro, BasicACLService.removeRoleFromUser ComposableACL.mixinView st ro =
        ComposableACL.removeRoleFromUser st ro)
    ∧ (∀ go, BasicACLService.assignGroupToUser ComposableACL.mixinView st go =
        ComposableACL.assignGroupToUser st go)
    ∧ (∀ nm, BasicACLService.appendGroupToUser ComposableACL.mixinView st nm =
        ComposableACL.appendGroupToUser st nm)
    ∧ (∀ go, BasicACLService.removeGroupFromUser ComposableACL.mixinView st go =
        ComposableACL.removeGroupFromUser st go) := by
  refine ⟨rfl, rfl, fun g => rfl, fun r => rfl, ?_, ?_, fun g => rfl, fun g => rfl,
    fun ro => rfl, fun nm => rfl, fun ro => rfl, fun go => rfl, fun nm => rfl,
    fun go => rfl⟩
  · intro ro
    unfold BasicACLService.getRoleScopes ComposableACL.getRoleScopes
    rw [roleScopesLoop_eq]
  · unfold BasicACLService.getRoleScopesFromUser ComposableACL.getRoleScopesFromUser
    cases ComposableACL.getAclRoles st with
    | none => rfl
    | some roles => simp only [roleScopesLoop_eq]

/-- Witness for the amended C2 at the README configuration and a concrete
mixin state. -/
theorem service_mixin_shared_ops_agree_witness :
    BasicACLService.getRoleScopes exampleConfig (.str "role_admin") =
      ComposableACL.getRoleScopes exampleConfig (.str "role_admin") ∧
    BasicACLService.getRoleScopesFromUser exampleConfig
        (ComposableACL.getAclRoles ⟨["role_user"], []⟩) =
      ComposableACL.getRoleScopesFromUser exampleConfig ⟨["role_user"], []⟩ :=
  ⟨(service_mixin_shared_ops_agree exampleConfig ⟨[], []⟩).2.2.2.2.1 (.str "role_admin"),
   (service_mixin_shared_ops_agree exampleConfig ⟨["role_user"], []⟩).2.2.2.2.2.1⟩
